import Mathlib

/-!
Verification of the recursive protected-copy engine of the `protect` library
(`protect.go`).

The engine walks two parallel value graphs of identical static type, copying
from source into destination while skipping struct fields whose exclusion-tag
list (the `protectfor` tag) contains the caller-supplied operation tag, and
applying per-container merge policies to slices and maps.

Shallow embedding conventions:
* `Ty` models the static Go type of both sides of a copy (`reflect.Type`);
  struct fields carry their exclusion-tag string (`protectfor` value).
  Field names are kept out of the model: the Go code uses them only to build
  wrapped error messages.
* `Value` models a runtime `reflect.Value`: strings, ints, bools, pointers
  (`none` = nil pointer), structs (exported, settable fields in declaration
  order), slices (`none` = nil slice) and string-keyed maps (`none` = nil map,
  `some` = association list of entries in iteration/insertion order; Go map
  iteration order is unspecified, the association-list order stands for one
  concrete iteration order and `SetMapIndex` of a fresh key appends).
* The modelled value universe has no interface-typed values and no types
  registered in the primitive-struct registry (the registry is only
  pre-populated with `time.Time`, which does not occur below), so the
  `copyInterface` and `IsPrimitiveStruct` branches of the Go code fall away.
* Fallible Go functions returning `error` become `Except String _`.
* Per-instance merge-policy overrides (`sliceOptions` / `mapOptions`,
  keyed by container identity) are modelled as the `Option String` argument
  of `getSliceOption` / `getMapOption`.  During the recursion started by
  `Copy`/`Clone` no override is ever stored (only `CopySlice` stores one, for
  its own top-level destination, and deletes it before returning), so the
  recursive calls resolve with `none`.
-/

namespace Protect

/-- Static type of a copied value (`reflect.Type`).  A struct field is a pair
of its `protectfor` exclusion-tag string and its type. -/
inductive Ty where
  | string : Ty
  | int : Ty
  | bool : Ty
  | ptr (elem : Ty) : Ty
  | struct (fields : List (String × Ty)) : Ty
  | slice (elem : Ty) : Ty
  | map (elem : Ty) : Ty

/-- Runtime value (`reflect.Value`).  `ptr none` is a nil pointer,
`slice none` a nil slice, `map none` a nil map. -/
inductive Value where
  | str (s : String) : Value
  | int (n : Int) : Value
  | bool (b : Bool) : Value
  | ptr (v : Option Value) : Value
  | struct (fields : List Value) : Value
  | slice (elems : Option (List Value)) : Value
  | map (entries : Option (List (String × Value))) : Value

mutual
/-- The zero `Value` of a type (`reflect.New(t).Elem()` / `reflect.Zero`). -/
def zeroVal : Ty → Value
  | .string => .str ""
  | .int => .int 0
  | .bool => .bool false
  | .ptr _ => .ptr none
  | .struct fs => .struct (zeroFields fs)
  | .slice _ => .slice none
  | .map _ => .map none

/-- Zero values of a struct's fields, in order. -/
def zeroFields : List (String × Ty) → List Value
  | [] => []
  | f :: fs => zeroVal f.2 :: zeroFields fs
end

mutual
/-- `v` is a well-typed value of type `t` (in Go this is enforced by the
`reflect` type system and the entry-point type check). -/
def conforms : Ty → Value → Bool
  | .string, .str _ => true
  | .int, .int _ => true
  | .bool, .bool _ => true
  | .ptr _, .ptr none => true
  | .ptr et, .ptr (some v) => conforms et v
  | .struct fts, .struct vs => conformsFields fts vs
  | .slice _, .slice none => true
  | .slice et, .slice (some es) => conformsList et es
  | .map _, .map none => true
  | .map et, .map (some es) => conformsEntries et es
  | _, _ => false

/-- Fields of a struct value conform pointwise to the field types. -/
def conformsFields : List (String × Ty) → List Value → Bool
  | [], [] => true
  | ft :: fts, v :: vs => conforms ft.2 v && conformsFields fts vs
  | _, _ => false

/-- All elements of a slice conform to the element type. -/
def conformsList (et : Ty) : List Value → Bool
  | [] => true
  | v :: vs => conforms et v && conformsList et vs

/-- All values of a map conform to the element type. -/
def conformsEntries (et : Ty) : List (String × Value) → Bool
  | [] => true
  | e :: es => conforms et e.2 && conformsEntries et es
end

/-- ASCII whitespace (the characters `strings.TrimSpace` strips from the
tag tokens appearing in this library's tags). -/
def isSpace (c : Char) : Bool :=
  c = ' ' || c = '\t' || c = '\n' || c = '\r'

/-- `strings.TrimSpace`: drop leading and trailing whitespace. -/
def trimSpace (s : String) : String :=
  (((s.toList.dropWhile isSpace).reverse.dropWhile isSpace).reverse).asString

/-- Split a character list at commas (helper for `strings.Split(s, ",")`). -/
def splitCommaAux : List Char → List Char → List (List Char)
  | [], cur => [cur.reverse]
  | c :: cs, cur =>
      if c = ',' then cur.reverse :: splitCommaAux cs []
      else splitCommaAux cs (c :: cur)

/-- `strings.Split(s, ",")`: comma-separated pieces; `splitComma "" = [""]`. -/
def splitComma (s : String) : List String :=
  (splitCommaAux s.toList []).map List.asString

/-- `isProtected` (protect.go): the field whose `protectfor` value is
`tagValue` is protected for operation tag `tag` iff some whitespace-trimmed
comma-separated token of `tagValue` equals `tag`; an empty `tagValue` or an
empty operation tag never matches. -/
def isProtected (tagValue tag : String) : Bool :=
  if tagValue = "" || tag = "" then false
  else (splitComma tagValue).any fun t => trimSpace t = tag

mutual
/-- `simpleCloneElement` (protect.go): clone of a value ignoring all tags
(used for new container elements under the `overwrite` policies and for
fresh keys). -/
def simpleCloneElement : Value → Value
  | .str s => .str s
  | .int n => .int n
  | .bool b => .bool b
  | .ptr none => .ptr none
  | .ptr (some v) => .ptr (some (simpleCloneElement v))
  | .struct fs => .struct (simpleCloneFields fs)
  | .slice none => .slice none
  | .slice (some es) => .slice (some (simpleCloneFields es))
  | .map none => .map none
  | .map (some es) => .map (some (simpleCloneEntries es))

/-- Clones of a list of field or element values, in order. -/
def simpleCloneFields : List Value → List Value
  | [] => []
  | v :: vs => simpleCloneElement v :: simpleCloneFields vs

/-- Clones of map entries, keys unchanged. -/
def simpleCloneEntries : List (String × Value) → List (String × Value)
  | [] => []
  | (k, v) :: es => (k, simpleCloneElement v) :: simpleCloneEntries es
end

/-- `getSliceOption` (protect.go): resolve the merge policy for one slice
instance.  The Go code looks the slice's identity up in the per-instance
override map (`sliceOptions`) and otherwise returns `"overwrite"`; the
declared per-field option tag (`optTagName`, configured in `NewProtector`)
is never consulted, despite the function's own comment saying the option
comes "from the options map or field tag". -/
def getSliceOption (override : Option String) : String :=
  match override with
  | some o => o
  | none => "overwrite"

/-- `getMapOption` (protect.go): same resolution as `getSliceOption`, for
maps (override map `mapOptions`, keyed by the map's address). -/
def getMapOption (override : Option String) : String :=
  match override with
  | some o => o
  | none => "overwrite"

/-- Fields of the temporary struct built for an existing key under the
`match` map policy: Go first sets every exported field from the source
value, then (when `tag` is non-empty) re-sets the protected fields from the
destination value. -/
def matchStructFields (tag : String) :
    List (String × Ty) → List Value → List Value → List Value
  | [], _, _ => []
  | ft :: fts, sf :: sfs, df :: dfs =>
      (if tag != "" && isProtected ft.1 tag then df else sf) ::
        matchStructFields tag fts sfs dfs
  | _ :: _, _, _ => []

/-- Fields of the temporary struct built for an existing key under the
`patch` map policy: Go starts from the destination value and copies every
field for which `!isProtected(tagValue, tag) || tag == ""` from the source. -/
def patchStructFields (tag : String) :
    List (String × Ty) → List Value → List Value → List Value
  | [], _, _ => []
  | ft :: fts, sf :: sfs, df :: dfs =>
      (if !(isProtected ft.1 tag) || tag == "" then sf else df) ::
        patchStructFields tag fts sfs dfs
  | _ :: _, _, _ => []

/-- `reflect.Value.SetMapIndex` on an association list: replace the value of
an existing key in place, append a fresh key at the end. -/
def setMapIndex (l : List (String × Value)) (k : String) (v : Value) :
    List (String × Value) :=
  if (l.lookup k).isSome then
    l.map fun e => if e.1 = k then (k, v) else e
  else l ++ [(k, v)]

mutual
/-- `copyValue` (protect.go): kind dispatch.  The modelled universe contains
no interface values and no registered primitive structs, so those two
branches of the Go switch fall away.  The recursion started from
`Copy`/`Clone` never finds a per-instance policy override (only `CopySlice`
stores one, keyed to its own top-level destination, and removes it before
returning), so the container branches resolve their policy with `none`.
The final catch-all is the basic-kind case `dst.Set(src)`; ill-typed
combinations of `t`, `s`, `d` cannot occur (the entry points check the two
sides have the same type). -/
def copyValue (tag : String) (t : Ty) (s d : Value) : Except String Value :=
  match t, s, d with
  | .struct fts, .struct sfs, .struct dfs =>
      (copyStruct tag fts sfs dfs).map .struct
  | .ptr et, .ptr sv, .ptr dv => (copyPtr tag et sv dv).map .ptr
  | .slice et, .slice sv, .slice dv => (copySlice none tag et sv dv).map .slice
  | .map et, .map sv, .map dv => (copyMap none tag et sv dv).map .map
  | _, _, _ => .ok s
termination_by (sizeOf s, 0)

/-- `copyStruct` (protect.go): per exported field, skip it when
`tag != "" && isProtected(tagValue, tag)` (destination field kept),
otherwise recurse; a failing field aborts with a wrapped error (the Go
message also names the field; field names are not modelled). -/
def copyStruct (tag : String) :
    List (String × Ty) → List Value → List Value → Except String (List Value)
  | [], _, _ => .ok []
  | ft :: fts, sf :: sfs, df :: dfs =>
      if tag != "" && isProtected ft.1 tag then do
        let rest ← copyStruct tag fts sfs dfs
        .ok (df :: rest)
      else do
        let v ←
          match copyValue tag ft.2 sf df with
          | .ok v => Except.ok v
          | .error e => Except.error ("error copying field: " ++ e)
        let rest ← copyStruct tag fts sfs dfs
        .ok (v :: rest)
  | _ :: _, _, _ => .ok []
termination_by fts sfs dfs => (sizeOf sfs, 0)

/-- `copyPtr` (protect.go): nil source forces a nil destination; otherwise
recurse into the pointees, allocating a fresh zero pointee when the
destination pointer is nil. -/
def copyPtr (tag : String) (et : Ty) (sv dv : Option Value) :
    Except String (Option Value) :=
  match sv with
  | none => .ok none
  | some v =>
      let d0 := match dv with
        | none => zeroVal et
        | some w => w
      (copyValue tag et v d0).map some
termination_by (sizeOf sv, 0)

/-- `copySlice` (protect.go).  A nil source slice sets the destination to
nil before the policy is even resolved.  `overwrite` rebuilds the slice from
unprotected clones; `match` first adjusts the length (fresh slice, existing
elements kept up to `min`, zero elements beyond) and then copies index-wise,
branching at the *old* destination length; `longer` extends a shorter
destination with zero elements and then copies only up to
`min(srcLen, old dstLen)`; `shorter` copies up to the minimum length and
leaves the rest of the destination untouched (the destination is never
re-allocated, so its length never changes).  The destination is only
replaced (`dst.Set`) where the Go code does so; everywhere else a nil
destination slice stays nil. -/
def copySlice (override : Option String) (tag : String) (et : Ty)
    (sv dv : Option (List Value)) : Except String (Option (List Value)) :=
  match sv with
  | none => .ok none
  | some ss =>
      let option := getSliceOption override
      let ds := dv.getD []
      let srcLen := ss.length
      let dstLen := ds.length
      match option with
      | "overwrite" => .ok (some (simpleCloneFields ss))
      | "match" =>
          let adjusted :=
            if dstLen != srcLen then
              ds.take srcLen ++ List.replicate (srcLen - dstLen) (zeroVal et)
            else ds
          (matchElems tag et dstLen 0 ss adjusted).map fun res =>
            if dstLen != srcLen then some res else dv.map fun _ => res
      | "longer" =>
          let extended :=
            if dstLen < srcLen then
              ds ++ List.replicate (srcLen - dstLen) (zeroVal et)
            else ds
          let copyLen := if srcLen > dstLen then dstLen else srcLen
          (copyElemsN tag et copyLen ss extended).map fun res =>
            if dstLen < srcLen then some res else dv.map fun _ => res
      | "shorter" =>
          let copyLen := if dstLen < srcLen then dstLen else srcLen
          (copyElemsN tag et copyLen ss ds).map fun res => dv.map fun _ => res
      | _ => .error ("unknown slice option: " ++ option)
termination_by (sizeOf sv, 0)

/-- The per-index loop of the `match` slice policy: for `i` below the old
destination length a tag-aware recursive copy into the existing element; at
new indices a struct element is built by `copyStruct` against a fresh zero
struct, and a non-struct element is copied against the (zero) element of the
adjusted slice. -/
def matchElems (tag : String) (et : Ty) (dstLenOld i : Nat) :
    List Value → List Value → Except String (List Value)
  | [], _ => .ok []
  | s :: ss, d :: ds => do
      let v ←
        if i < dstLenOld then copyValue tag et s d
        else
          match et, s with
          | .struct fts, .struct sfs =>
              (copyStruct tag fts sfs (zeroFields fts)).map Value.struct
          | _, s2 => copyValue tag et s2 d
      let rest ← matchElems tag et dstLenOld (i + 1) ss ds
      .ok (v :: rest)
  | _ :: _, [] => .ok []
termination_by ss ds => (sizeOf ss, 0)

/-- The per-index loop of the `longer` and `shorter` slice policies: copy
the first `n` destination elements from the corresponding source elements
(tag-aware), keep the remaining destination elements untouched. -/
def copyElemsN (tag : String) (et : Ty) :
    Nat → List Value → List Value → Except String (List Value)
  | _, _, [] => .ok []
  | 0, _, ds => .ok ds
  | n + 1, s :: ss, d :: ds => do
      let v ← copyValue tag et s d
      let rest ← copyElemsN tag et n ss ds
      .ok (v :: rest)
  | _ + 1, [], ds => .ok ds
termination_by n ss ds => (sizeOf ss, 0)

/-- `copyMap` (protect.go).  A nil source map sets the destination to nil
before the policy is resolved (so also under `patch`).  `overwrite` rebuilds
the map from unprotected clones of the source entries; `match` builds a new
map holding exactly the source's keys; `patch` updates the destination map
in place (a nil destination is first replaced by an empty map). -/
def copyMap (override : Option String) (tag : String) (et : Ty)
    (sv dv : Option (List (String × Value))) :
    Except String (Option (List (String × Value))) :=
  match sv with
  | none => .ok none
  | some ses =>
      let option := getMapOption override
      match option with
      | "overwrite" => .ok (some (simpleCloneEntries ses))
      | "match" => .ok (some (matchEntries tag et ses (dv.getD [])))
      | "patch" => .ok (some (patchEntries tag et ses (dv.getD [])))
      | _ => .error ("unknown map option: " ++ option)
termination_by (sizeOf sv, 0)

/-- The value stored for one source key under the `match` map policy
(`dOpt` is the destination map's value at that key, when present).  For an
existing key with a struct value the temporary is seeded field-wise from the
source and protected fields are re-set from the destination; for an existing
key with a non-struct value Go calls `copyValue` and ignores its error (that
error branch is unreachable, `copyValue` never fails in the no-override
recursion; on error Go would keep the partially written temporary); a fresh
key gets an unprotected clone. -/
def matchEntryValue (tag : String) (et : Ty) (sv : Value) (dOpt : Option Value) :
    Value :=
  match et, sv, dOpt with
  | .struct fts, .struct sfs, some (.struct dfs) =>
      .struct (matchStructFields tag fts sfs dfs)
  | _, sv2, some dV =>
      match copyValue tag et sv2 dV with
      | .ok v => v
      | .error _ => dV
  | _, sv2, none => simpleCloneElement sv2
termination_by (sizeOf sv, 1)

/-- The per-key loop of the `match` map policy: iterate the source entries,
looking each key up in the (unmodified) destination map. -/
def matchEntries (tag : String) (et : Ty) :
    List (String × Value) → List (String × Value) → List (String × Value)
  | [], _ => []
  | (k, sv) :: ses, ds =>
      (k, matchEntryValue tag et sv (List.lookup k ds)) ::
        matchEntries tag et ses ds
termination_by ses ds => (sizeOf ses, 0)

/-- The value stored for one already-present key under the `patch` map
policy: a struct value keeps its protected fields from the destination (the
temporary starts as the destination value, unprotected fields are then set
from the source); a non-struct value goes through `copyValue` with the error
ignored, as in `matchEntryValue`. -/
def patchEntryValue (tag : String) (et : Ty) (sv dV : Value) : Value :=
  match et, sv, dV with
  | .struct fts, .struct sfs, .struct dfs =>
      .struct (patchStructFields tag fts sfs dfs)
  | _, sv2, dV2 =>
      match copyValue tag et sv2 dV2 with
      | .ok w => w
      | .error _ => dV2
termination_by (sizeOf sv, 1)

/-- The per-key loop of the `patch` map policy: iterate the source entries,
updating the destination map in place (`SetMapIndex`): an existing key is
re-set to `patchEntryValue`, a fresh key is appended as an unprotected
clone.  Destination-only keys are never touched. -/
def patchEntries (tag : String) (et : Ty) :
    List (String × Value) → List (String × Value) → List (String × Value)
  | [], ds => ds
  | (k, sv) :: ses, ds =>
      let ds' :=
        match List.lookup k ds with
        | some dV => setMapIndex ds k (patchEntryValue tag et sv dV)
        | none => ds ++ [(k, simpleCloneElement sv)]
      patchEntries tag et ses ds'
termination_by ses ds => (sizeOf ses, 0)
end

/-! ### Basic lemmas about the embedding -/

theorem isOk_map {α β : Type} (f : α → β) (e : Except String α) :
    (Except.map f e).isOk = e.isOk := by
  cases e <;> rfl

theorem isOk_iff_exists {α : Type} (e : Except String α) :
    e.isOk = true ↔ ∃ a, e = .ok a := by
  cases e <;> simp [Except.isOk, Except.toBool]

/-- The zero value of a type is well typed. -/
theorem conforms_zeroVal (t : Ty) : conforms t (zeroVal t) = true := by
  refine zeroVal.induct (fun t => conforms t (zeroVal t) = true)
    (fun fts => conformsFields fts (zeroFields fts) = true)
    ?_ ?_ ?_ ?_ ?_ ?_ ?_ ?_ ?_ t <;>
  · intros
    simp_all [zeroVal, zeroFields, conforms, conformsFields]

/-- In the pure model `simpleCloneElement` is the identity (the Go function
produces a structurally equal, freshly allocated value graph). -/
theorem simpleCloneElement_id (v : Value) : simpleCloneElement v = v := by
  refine simpleCloneElement.induct (fun v => simpleCloneElement v = v)
    (fun es => simpleCloneEntries es = es)
    (fun vs => simpleCloneFields vs = vs)
    ?_ ?_ ?_ ?_ ?_ ?_ ?_ ?_ ?_ ?_ ?_ ?_ ?_ ?_ v <;>
  · intros
    simp_all [simpleCloneElement, simpleCloneFields, simpleCloneEntries]

/-- List version of `simpleCloneElement_id`. -/
theorem simpleCloneFields_id (vs : List Value) : simpleCloneFields vs = vs := by
  induction vs with
  | nil => rfl
  | cons v vs ih => simp [simpleCloneFields, simpleCloneElement_id, ih]

/-- Entry-list version of `simpleCloneElement_id`. -/
theorem simpleCloneEntries_id (es : List (String × Value)) :
    simpleCloneEntries es = es := by
  induction es with
  | nil => rfl
  | cons e es ih =>
      cases e
      simp [simpleCloneEntries, simpleCloneElement_id, ih]

/-! ### Totality: with no per-instance override the engine never errors -/

/-- `copyValue` always succeeds: every policy resolved during the recursion
from `Copy`/`Clone` is `"overwrite"`, so the `unknown slice option` /
`unknown map option` branches are never taken and no error is ever built. -/
theorem copyValue_isOk (tag : String) (t : Ty) (s d : Value) :
    (copyValue tag t s d).isOk = true := by
  refine copyValue.induct
    (fun tag t s d => (copyValue tag t s d).isOk = true)
    (fun o tag et sv dv =>
      (getMapOption o = "overwrite" ∨ getMapOption o = "match" ∨
        getMapOption o = "patch") → (copyMap o tag et sv dv).isOk = true)
    (fun _ _ _ _ => True)
    (fun _ _ _ _ => True)
    (fun _ _ _ _ => True)
    (fun _ _ _ _ => True)
    (fun o tag et sv dv =>
      (getSliceOption o = "overwrite" ∨ getSliceOption o = "match" ∨
        getSliceOption o = "longer" ∨ getSliceOption o = "shorter") →
        (copySlice o tag et sv dv).isOk = true)
    (fun tag et n ss ds => (copyElemsN tag et n ss ds).isOk = true)
    (fun tag et m i ss ds => (matchElems tag et m i ss ds).isOk = true)
    (fun tag fts sfs dfs => (copyStruct tag fts sfs dfs).isOk = true)
    (fun tag et sv dv => (copyPtr tag et sv dv).isOk = true)
    ?_ ?_ ?_ ?_ ?_ ?_ ?_ ?_ ?_ ?_ ?_ ?_ ?_ ?_ ?_ ?_ ?_ ?_ ?_ ?_ ?_ ?_ ?_ ?_
    ?_ ?_ ?_ ?_ ?_ ?_ ?_ ?_ ?_ ?_ ?_ ?_ ?_ ?_ ?_ ?_ ?_ ?_ ?_ tag t s d
  · intro tag fts sfs dfs h
    simp [copyValue, isOk_map, h]
  · intro tag et sv dv h
    simp [copyValue, isOk_map, h]
  · intro tag et sv dv h
    simp only [copyValue, isOk_map]
    exact h (Or.inl rfl)
  · intro tag et sv dv h
    simp only [copyValue, isOk_map]
    exact h (Or.inl rfl)
  · intro tag t s d h1 h2 h3 h4
    rw [copyValue.eq_def]
    split
    · exact (h1 _ _ _ rfl rfl rfl).elim
    · exact (h2 _ _ _ rfl rfl rfl).elim
    · exact (h3 _ _ _ rfl rfl rfl).elim
    · exact (h4 _ _ _ rfl rfl rfl).elim
    · rfl
  · intro o tag et dv hd
    simp [copyMap, Except.isOk, Except.toBool]
  · intro o tag et dv ses option hopt hd
    have h2 : getMapOption o = "overwrite" := hopt
    simp [copyMap, h2, Except.isOk, Except.toBool]
  · intro o tag et dv ses option hopt ht hd
    have h2 : getMapOption o = "match" := hopt
    simp [copyMap, h2, Except.isOk, Except.toBool]
  · intro o tag et dv ses option hopt ht hd
    have h2 : getMapOption o = "patch" := hopt
    simp [copyMap, h2, Except.isOk, Except.toBool]
  · intro o tag et dv ses option hno1 hno2 hno3 hd
    rcases hd with h | h | h
    · exact absurd h hno1
    · exact absurd h hno2
    · exact absurd h hno3
  · intro tag et x
    trivial
  · intro tag et k sv ses ds ds' h4 h3
    trivial
  · intro tag fts sfs dfs
    trivial
  · intro tag et sv2 dV2 v hcv hns h1
    trivial
  · intro tag et sv2 dV2 e hcv hns h1
    trivial
  · intro tag et x
    trivial
  · intro tag et k sv ses ds h6 h5
    trivial
  · intro tag fts sfs dfs
    trivial
  · intro tag et sv2 dV v hcv hns h1
    trivial
  · intro tag et sv2 dV e hcv hns h1
    trivial
  · intro tag et sv2
    trivial
  · intro o tag et dv hd
    simp [copySlice, Except.isOk, Except.toBool]
  · intro o tag et dv ss option hopt hd
    have h2 : getSliceOption o = "overwrite" := hopt
    simp [copySlice, h2, Except.isOk, Except.toBool]
  · intro o tag et dv ss option ds srcLen dstLen hopt adjusted h9
    intro hd
    have h2 : getSliceOption o = "match" := hopt
    simp only [copySlice, h2, isOk_map]
    exact h9
  · intro o tag et dv ss option ds srcLen dstLen hopt extended copyLen h8
    intro hd
    have h2 : getSliceOption o = "longer" := hopt
    simp only [copySlice, h2, isOk_map]
    exact h8
  · intro o tag et dv ss option ds srcLen dstLen hopt copyLen h8
    intro hd
    have h2 : getSliceOption o = "shorter" := hopt
    simp only [copySlice, h2, isOk_map]
    exact h8
  · intro o tag et dv ss option hno1 hno2 hno3 hno4 hd
    rcases hd with h | h | h | h
    · exact absurd h hno1
    · exact absurd h hno2
    · exact absurd h hno3
    · exact absurd h hno4
  · intro tag et n ss
    simp [copyElemsN, Except.isOk, Except.toBool]
  · intro tag et x ds hne
    rw [copyElemsN.eq_def]
    split <;> simp_all [Except.isOk, Except.toBool, bind, Except.bind]
  · intro tag et n s ss d ds h1 h8
    obtain ⟨v, hv⟩ := (isOk_iff_exists _).mp h1
    obtain ⟨r, hr⟩ := (isOk_iff_exists _).mp h8
    simp [copyElemsN, hv, hr, Except.isOk, Except.toBool, bind, Except.bind]
  · intro tag et n ds hne
    rw [copyElemsN.eq_def]
    split <;> simp_all [Except.isOk, Except.toBool, bind, Except.bind]
  · intro tag et m i x
    simp [matchElems, Except.isOk, Except.toBool]
  · intro tag et m i s ss d ds hlt h9 h1
    obtain ⟨v, hv⟩ := (isOk_iff_exists _).mp h1
    obtain ⟨r, hr⟩ := (isOk_iff_exists _).mp h9
    rw [matchElems.eq_def]
    simp [hlt, hv, hr, Except.isOk, Except.toBool, bind, Except.bind]
  · intro tag m i ss d ds hnl fts sfs h9 h10
    obtain ⟨v, hv⟩ := (isOk_iff_exists _).mp h10
    obtain ⟨r, hr⟩ := (isOk_iff_exists _).mp h9
    rw [matchElems.eq_def]
    simp [hnl, hv, hr, isOk_map, Except.isOk, Except.toBool, bind, Except.bind,
      Except.map]
  · intro tag et m i ss d ds hnl s2 hns h9 h1
    obtain ⟨v, hv⟩ := (isOk_iff_exists _).mp h1
    obtain ⟨r, hr⟩ := (isOk_iff_exists _).mp h9
    rw [matchElems.eq_def]
    simp only [if_neg hnl]
    simp [hv, hr, Except.isOk, Except.toBool, bind, Except.bind]
  · intro tag et m i s ss
    simp [matchElems, Except.isOk, Except.toBool]
  · intro tag x x1
    simp [copyStruct, Except.isOk, Except.toBool]
  · intro tag ft fts sf sfs df dfs hp h10
    obtain ⟨r, hr⟩ := (isOk_iff_exists _).mp h10
    simp [copyStruct, hp, hr, Except.isOk, Except.toBool, bind, Except.bind]
  · intro tag ft fts sf sfs df dfs hnp v hcv h10 h1
    obtain ⟨r, hr⟩ := (isOk_iff_exists _).mp h10
    simp [copyStruct, hnp, hcv, hr, Except.isOk, Except.toBool, bind,
      Except.bind]
  · intro tag ft fts sf sfs df dfs hnp e hcv h10 h1
    rw [hcv] at h1
    simp [Except.isOk, Except.toBool] at h1
  · intro tag hd tl x x1 hno
    rw [copyStruct.eq_def]
    split <;>
      first
        | rfl
        | (exfalso; apply hno <;> first | rfl | assumption | (apply Eq.symm; assumption))
        | simp [Except.isOk, Except.toBool]
  · intro tag et dv
    simp [copyPtr, Except.isOk, Except.toBool]
  · intro tag et dv w d0 h1
    rw [copyPtr.eq_def]
    simpa [isOk_map] using h1

/-! ### The empty operation tag: `Copy("", ...)` behaves as a deep clone -/

/-- With the empty operation tag no field is ever skipped and every container
policy resolves to `overwrite`, so the copy result is exactly the source
value, independent of the prior destination (for well-typed values). -/
theorem copyValue_empty_tag (t : Ty) (s d : Value)
    (hs : conforms t s = true) (hd : conforms t d = true) :
    copyValue "" t s d = .ok s := by
  refine copyValue.induct
    (fun tag t s d => tag = "" → conforms t s = true → conforms t d = true →
      copyValue tag t s d = .ok s)
    (fun o tag et sv dv => o = none → copyMap o tag et sv dv = .ok sv)
    (fun _ _ _ _ => True)
    (fun _ _ _ _ => True)
    (fun _ _ _ _ => True)
    (fun _ _ _ _ => True)
    (fun o tag et sv dv => o = none → copySlice o tag et sv dv = .ok sv)
    (fun _ _ _ _ _ => True)
    (fun _ _ _ _ _ _ => True)
    (fun tag fts sfs dfs => tag = "" → conformsFields fts sfs = true →
      conformsFields fts dfs = true → copyStruct tag fts sfs dfs = .ok sfs)
    (fun tag et sv dv => tag = "" → conforms (.ptr et) (.ptr sv) = true →
      conforms (.ptr et) (.ptr dv) = true → copyPtr tag et sv dv = .ok sv)
    ?_ ?_ ?_ ?_ ?_ ?_ ?_ ?_ ?_ ?_ ?_ ?_ ?_ ?_ ?_ ?_ ?_ ?_ ?_ ?_ ?_ ?_ ?_ ?_
    ?_ ?_ ?_ ?_ ?_ ?_ ?_ ?_ ?_ ?_ ?_ ?_ ?_ ?_ ?_ ?_ ?_ ?_ ?_ "" t s d rfl hs hd
  · intro tag fts sfs dfs h ht h1 h2
    simp only [conforms] at h1 h2
    simp [copyValue, h ht h1 h2, Except.map]
  · intro tag et sv dv h ht h1 h2
    simp [copyValue, h ht h1 h2, Except.map]
  · intro tag et sv dv h ht h1 h2
    simp [copyValue, h rfl, Except.map]
  · intro tag et sv dv h ht h1 h2
    simp [copyValue, h rfl, Except.map]
  · intro tag t s d h1 h2 h3 h4 ht hcs hcd
    rw [copyValue.eq_def]
    split
    · exact (h1 _ _ _ rfl rfl rfl).elim
    · exact (h2 _ _ _ rfl rfl rfl).elim
    · exact (h3 _ _ _ rfl rfl rfl).elim
    · exact (h4 _ _ _ rfl rfl rfl).elim
    · rfl
  · intro o tag et dv ho
    simp [copyMap]
  · intro o tag et dv ses option hopt ho
    have h2 : getMapOption o = "overwrite" := hopt
    simp [copyMap, h2, simpleCloneEntries_id]
  · intro o tag et dv ses option hopt ht ho
    subst ho
    exact absurd hopt (by decide)
  · intro o tag et dv ses option hopt ht ho
    subst ho
    exact absurd hopt (by decide)
  · intro o tag et dv ses option hno1 hno2 hno3 ho
    subst ho
    exact (hno1 rfl).elim
  · intro tag et x
    trivial
  · intro tag et k sv ses ds ds' h4 h3
    trivial
  · intro tag fts sfs dfs
    trivial
  · intro tag et sv2 dV2 v hcv hns h1
    trivial
  · intro tag et sv2 dV2 e hcv hns h1
    trivial
  · intro tag et x
    trivial
  · intro tag et k sv ses ds h6 h5
    trivial
  · intro tag fts sfs dfs
    trivial
  · intro tag et sv2 dV v hcv hns h1
    trivial
  · intro tag et sv2 dV e hcv hns h1
    trivial
  · intro tag et sv2
    trivial
  · intro o tag et dv ho
    simp [copySlice]
  · intro o tag et dv ss option hopt ho
    have h2 : getSliceOption o = "overwrite" := hopt
    simp [copySlice, h2, simpleCloneFields_id]
  · intro o tag et dv ss option ds srcLen dstLen hopt adjusted h9 ho
    subst ho
    exact absurd hopt (by decide)
  · intro o tag et dv ss option ds srcLen dstLen hopt extended copyLen h8 ho
    subst ho
    exact absurd hopt (by decide)
  · intro o tag et dv ss option ds srcLen dstLen hopt copyLen h8 ho
    subst ho
    exact absurd hopt (by decide)
  · intro o tag et dv ss option hno1 hno2 hno3 hno4 ho
    subst ho
    exact (hno1 rfl).elim
  · intro tag et n ss
    trivial
  · intro tag et x ds hne
    trivial
  · intro tag et n s ss d ds h1 h8
    trivial
  · intro tag et n ds hne
    trivial
  · intro tag et m i x
    trivial
  · intro tag et m i s ss d ds hlt h9 h1
    trivial
  · intro tag m i ss d ds hnl fts sfs h9 h10
    trivial
  · intro tag et m i ss d ds hnl s2 hns h9 h1
    trivial
  · intro tag et m i s ss
    trivial
  · intro tag x x1 ht h1 h2
    cases x with
    | nil => simp [copyStruct]
    | cons a as => simp [conformsFields] at h1
  · intro tag ft fts sf sfs df dfs hp h10 ht h1 h2
    subst ht
    simp at hp
  · intro tag ft fts sf sfs df dfs hnp v hcv h10 h1 ht hc1 hc2
    subst ht
    simp only [conformsFields, Bool.and_eq_true] at hc1 hc2
    have hv : copyValue "" ft.2 sf df = .ok sf := h1 rfl hc1.1 hc2.1
    rw [hcv] at hv
    cases hv
    simp [copyStruct, hcv, h10 rfl hc1.2 hc2.2, bind, Except.bind]
  · intro tag ft fts sf sfs df dfs hnp e hcv h10 h1
    have := copyValue_isOk tag ft.2 sf df
    rw [hcv] at this
    simp [Except.isOk, Except.toBool] at this
  · intro tag hd tl x x1 hno ht h1 h2
    exfalso
    rcases x with _ | ⟨sf, sfs⟩
    · simp [conformsFields] at h1
    · rcases x1 with _ | ⟨df, dfs⟩
      · simp [conformsFields] at h2
      · exact hno sf sfs df dfs rfl rfl
  · intro tag et dv ht h1 h2
    simp [copyPtr]
  · intro tag et dv w
    cases dv with
    | none =>
        intro d0 h ht h1 h2
        have hw : conforms et w = true := by
          simpa [conforms] using h1
        have hcv : copyValue tag et w (zeroVal et) = Except.ok w :=
          h ht hw (conforms_zeroVal et)
        rw [copyPtr.eq_def]
        show Except.map some (copyValue tag et w (zeroVal et)) =
          Except.ok (some w)
        rw [hcv]
        rfl
    | some u =>
        intro d0 h ht h1 h2
        have hw : conforms et w = true := by
          simpa [conforms] using h1
        have hu : conforms et u = true := by
          simpa [conforms] using h2
        have hcv : copyValue tag et w u = Except.ok w := h ht hw hu
        rw [copyPtr.eq_def]
        show Except.map some (copyValue tag et w u) = Except.ok (some w)
        rw [hcv]
        rfl

/-! ### Entry points: `Copy`, `CopySlice`, `Clone` -/

mutual
/-- Equality of static types (`reflect.Type` identity comparison at the
entry points). -/
def tyEq : Ty → Ty → Bool
  | .string, .string => true
  | .int, .int => true
  | .bool, .bool => true
  | .ptr a, .ptr b => tyEq a b
  | .struct fs, .struct gs => tyFieldsEq fs gs
  | .slice a, .slice b => tyEq a b
  | .map a, .map b => tyEq a b
  | _, _ => false

/-- Pointwise equality of struct field lists (tag string and field type). -/
def tyFieldsEq : List (String × Ty) → List (String × Ty) → Bool
  | [], [] => true
  | f :: fs, g :: gs => (f.1 == g.1 && tyEq f.2 g.2) && tyFieldsEq fs gs
  | _, _ => false
end

mutual
theorem tyEq_refl : (t : Ty) → tyEq t t = true
  | .string => by simp [tyEq]
  | .int => by simp [tyEq]
  | .bool => by simp [tyEq]
  | .ptr e => by simp [tyEq, tyEq_refl e]
  | .struct fs => by simp [tyEq, tyFieldsEq_refl fs]
  | .slice e => by simp [tyEq, tyEq_refl e]
  | .map e => by simp [tyEq, tyEq_refl e]
termination_by t => sizeOf t

theorem tyFieldsEq_refl : (fs : List (String × Ty)) → tyFieldsEq fs fs = true
  | [] => by simp [tyFieldsEq]
  | f :: fs => by simp [tyFieldsEq, tyEq_refl f.2, tyFieldsEq_refl fs]
termination_by fs => sizeOf fs
decreasing_by
  all_goals simp_wf
  all_goals cases f
  all_goals simp_all
  all_goals omega
end

/-- A Go `interface{}` argument of `Copy`/`CopySlice`: the untyped nil, a
non-pointer value of type `t`, or a `*t` pointer (`none` = nil pointer,
`some v` = pointer whose pointee currently holds `v`). -/
inductive GoArg where
  | nil : GoArg
  | val (t : Ty) (v : Value) : GoArg
  | ptr (t : Ty) (v : Option Value) : GoArg

/-- The validated core of `Protector.Copy`: type check, then `copyValue`.
`st`/`sv` are the (dereferenced) source type and value, `dt`/`dv` the
destination pointee type and value, `dst` the original destination argument
(returned unchanged when validation fails).  The `copyValue` error branch is
unreachable (`copyValue_isOk`); the model hands back `GoArg.nil` there so
that the no-write-on-validation-error theorem cannot hold vacuously through
this dead branch (in Go an error in mid-copy could leave earlier fields of
the destination already written). -/
def copyArgs (tag : String) (st : Ty) (sv : Value) (dt : Ty) (dv : Value)
    (dst : GoArg) : Except String Unit × GoArg :=
  if tyEq st dt then
    match copyValue tag dt sv dv with
    | .ok v => (.ok (), .ptr dt (some v))
    | .error e => (.error e, .nil)
  else (.error "src and dst must be the same type", dst)

/-- `Protector.Copy` (protect.go): nil checks, source dereference,
destination pointer checks and the type check, in the order of the Go code,
all before anything is written; then `copyValue`.  The returned `GoArg` is
the state of the destination argument after the call. -/
def Copy (tag : String) (src dst : GoArg) : Except String Unit × GoArg :=
  match src, dst with
  | .nil, _ => (.error "src and dst must not be nil", dst)
  | _, .nil => (.error "src and dst must not be nil", dst)
  | .ptr _ none, _ => (.error "src must not be nil pointer", dst)
  | _, .val _ _ => (.error "dst must be a pointer", dst)
  | _, .ptr _ none => (.error "dst must not be nil pointer", dst)
  | .val st sv, .ptr dt (some dv) => copyArgs tag st sv dt dv dst
  | .ptr st (some sv), .ptr dt (some dv) => copyArgs tag st sv dt dv dst

/-- The validated core of `Protector.CopySlice`: type check, slice-kind
check, then `copySlice` with the per-instance override stored for the
(top-level) destination — the override is deleted again before returning,
so only this call sees it.  On the (reachable) unknown-option error the
destination is unchanged: the `default` branch of the Go `switch` writes
nothing. -/
def copySliceArgs (tag : String) (st : Ty) (sv : Value) (dt : Ty) (dv : Value)
    (option : String) (dst : GoArg) : Except String Unit × GoArg :=
  if tyEq st dt then
    match st, sv, dv with
    | .slice et, .slice ss, .slice ds =>
        match copySlice (some option) tag et ss ds with
        | .ok r => (.ok (), .ptr dt (some (.slice r)))
        | .error e => (.error e, dst)
    | _, _, _ => (.error "src and dst must be slices", dst)
  else (.error "src and dst must be the same type", dst)

/-- `Protector.CopySlice` (protect.go): the same validation prologue as
`Copy`, plus the check that both sides are slices; then `copySlice` with the
caller's option installed as the per-instance override. -/
def CopySlice (tag : String) (src dst : GoArg) (option : String) :
    Except String Unit × GoArg :=
  match src, dst with
  | .nil, _ => (.error "src and dst must not be nil", dst)
  | _, .nil => (.error "src and dst must not be nil", dst)
  | .ptr _ none, _ => (.error "src must not be nil pointer", dst)
  | _, .val _ _ => (.error "dst must be a pointer", dst)
  | _, .ptr _ none => (.error "dst must not be nil pointer", dst)
  | .val st sv, .ptr dt (some dv) => copySliceArgs tag st sv dt dv option dst
  | .ptr st (some sv), .ptr dt (some dv) =>
      copySliceArgs tag st sv dt dv option dst

/-- `Protector.Clone` (protect.go): nil source gives nil; otherwise a fresh
zero value of the source's (dereferenced) type is filled by `copyValue` with
the empty tag.  The model returns the cloned (pointee) value; for a pointer
source Go wraps it back into a fresh pointer.  The error fallback is
unreachable (`copyValue_isOk`; Go ignores `copyValue`'s result here). -/
def Clone (src : GoArg) : Option Value :=
  match src with
  | .nil => none
  | .ptr _ none => none
  | .ptr t (some v) =>
      match copyValue "" t v (zeroVal t) with
      | .ok w => some w
      | .error _ => none
  | .val t v =>
      match copyValue "" t v (zeroVal t) with
      | .ok w => some w
      | .error _ => none

/-! ### Association-list lemmas for the map policies -/

theorem lookup_map_update_ne (ds : List (String × Value)) (k0 k : String)
    (v : Value) (h : ¬k = k0) :
    List.lookup k (ds.map fun e => if e.1 = k0 then (k0, v) else e) =
      List.lookup k ds := by
  induction ds with
  | nil => rfl
  | cons e es ih =>
      obtain ⟨k1, v1⟩ := e
      by_cases h1 : k1 = k0
      · subst h1
        simp [List.lookup_cons, beq_false_of_ne h, ih]
      · simp [List.lookup_cons, h1, ih]

theorem lookup_map_update_self (ds : List (String × Value)) (k0 : String)
    (v : Value) (h : (List.lookup k0 ds).isSome = true) :
    List.lookup k0 (ds.map fun e => if e.1 = k0 then (k0, v) else e) =
      some v := by
  induction ds with
  | nil => simp [List.lookup] at h
  | cons e es ih =>
      obtain ⟨k1, v1⟩ := e
      by_cases h1 : k1 = k0
      · subst h1
        simp [List.lookup_cons]
      · have hne : ¬k0 = k1 := fun hh => h1 hh.symm
        simp only [List.lookup_cons, beq_false_of_ne hne] at h
        simp [List.lookup_cons, h1, beq_false_of_ne hne, ih h]

theorem lookup_append_single (ds : List (String × Value)) (k0 k : String)
    (v : Value) :
    List.lookup k (ds ++ [(k0, v)]) =
      ((List.lookup k ds).orElse fun _ => if k = k0 then some v else none) := by
  induction ds with
  | nil =>
      by_cases hk : k = k0
      · simp [List.lookup_cons, hk, Option.orElse]
      · simp [List.lookup_cons, beq_false_of_ne hk, hk, Option.orElse]
  | cons e es ih =>
      obtain ⟨k1, v1⟩ := e
      by_cases hk : k = k1
      · simp [List.lookup_cons, hk, Option.orElse]
      · simp [List.lookup_cons, beq_false_of_ne hk, ih]

theorem lookup_setMapIndex_ne (ds : List (String × Value)) (k0 k : String)
    (v : Value) (h : ¬k = k0) :
    List.lookup k (setMapIndex ds k0 v) = List.lookup k ds := by
  unfold setMapIndex
  split
  · exact lookup_map_update_ne ds k0 k v h
  · rw [lookup_append_single, if_neg h]
    cases List.lookup k ds <;> simp [Option.orElse]

theorem lookup_setMapIndex_self (ds : List (String × Value)) (k0 : String)
    (v : Value) :
    List.lookup k0 (setMapIndex ds k0 v) = some v := by
  unfold setMapIndex
  split
  · exact lookup_map_update_self ds k0 v (by assumption)
  · rename_i hn
    rw [Option.not_isSome_iff_eq_none] at hn
    rw [lookup_append_single, hn]
    simp [Option.orElse]

/-- Unfolding of one `patch` iteration. -/
theorem patchEntries_cons_eq (tag : String) (et : Ty) (k0 : String) (sv : Value)
    (ses ds : List (String × Value)) :
    patchEntries tag et ((k0, sv) :: ses) ds =
      patchEntries tag et ses
        (match List.lookup k0 ds with
          | some dV => setMapIndex ds k0 (patchEntryValue tag et sv dV)
          | none => ds ++ [(k0, simpleCloneElement sv)]) := by
  rw [patchEntries.eq_def]

/-- The `patch` loop: a key absent from the source keeps exactly its old
value, and every source key ends up present. -/
theorem patchEntries_lookup (tag : String) (et : Ty) :
    ∀ (ses ds : List (String × Value)),
      (∀ k, List.lookup k ses = none →
        List.lookup k (patchEntries tag et ses ds) = List.lookup k ds) ∧
      (∀ k, (List.lookup k ses).isSome = true →
        (List.lookup k (patchEntries tag et ses ds)).isSome = true) := by
  intro ses
  induction ses with
  | nil =>
      intro ds
      constructor
      · intro k _
        rw [show patchEntries tag et [] ds = ds from by
          rw [patchEntries.eq_def]]
      · intro k hk
        simp [List.lookup] at hk
  | cons e ses ih =>
      obtain ⟨k0, sv⟩ := e
      intro ds
      have hcons := patchEntries_cons_eq tag et k0 sv ses ds
      constructor
      · intro k hk
        rw [List.lookup_cons] at hk
        by_cases hbeq : k = k0
        · rw [beq_iff_eq.mpr hbeq] at hk
          simp at hk
        · rw [beq_false_of_ne hbeq] at hk
          have hk' : List.lookup k ses = none := hk
          rw [hcons, (ih _).1 k hk']
          cases hdl : List.lookup k0 ds with
          | some dV => exact lookup_setMapIndex_ne ds k0 k _ hbeq
          | none =>
              rw [lookup_append_single, if_neg hbeq]
              cases List.lookup k ds <;> simp [Option.orElse]
      · intro k hk
        rw [hcons]
        by_cases hses : (List.lookup k ses).isSome = true
        · exact (ih _).2 k hses
        · rw [Option.not_isSome_iff_eq_none] at hses
          rw [(ih _).1 k hses]
          rw [List.lookup_cons] at hk
          by_cases hbeq : k = k0
          · rw [hbeq]
            cases hdl : List.lookup k0 ds with
            | some dV => simp [lookup_setMapIndex_self]
            | none =>
                rw [lookup_append_single, hdl]
                simp [Option.orElse]
          · rw [beq_false_of_ne hbeq] at hk
            have hk' : (List.lookup k ses).isSome = true := hk
            rw [hses] at hk'
            simp at hk'

/-! ### Behavior of `copyElemsN` (the `longer`/`shorter` loop) -/

/-- The `longer`/`shorter` copy loop succeeds, preserves the destination
list's length and leaves every destination element at index `≥ n`
untouched. -/
theorem copyElemsN_exists (tag : String) (et : Ty) :
    ∀ (ds : List Value) (n : Nat) (ss : List Value), n ≤ ss.length →
      ∃ res, copyElemsN tag et n ss ds = .ok res ∧ res.length = ds.length ∧
        ∀ i, n ≤ i → res[i]? = ds[i]? := by
  intro ds
  induction ds with
  | nil =>
      intro n ss _
      refine ⟨[], ?_, rfl, fun i _ => rfl⟩
      simp [copyElemsN]
  | cons d ds ih =>
      intro n ss h
      cases n with
      | zero =>
          refine ⟨d :: ds, ?_, rfl, fun i _ => rfl⟩
          simp [copyElemsN]
      | succ n =>
          cases ss with
          | nil => simp at h
          | cons s ss =>
              have hle : n ≤ ss.length := by simpa using h
              obtain ⟨res, hres, hlen, hget⟩ := ih n ss hle
              obtain ⟨v, hv⟩ :=
                (isOk_iff_exists _).mp (copyValue_isOk tag et s d)
              refine ⟨v :: res, ?_, by simp [hlen], ?_⟩
              · simp [copyElemsN, hv, hres, bind, Except.bind]
              · intro i hi
                cases i with
                | zero => omega
                | succ j =>
                    simp only [List.getElem?_cons_succ]
                    exact hget j (by omega)

/-! ### Scalar dispatch and the `longer` policy -/

theorem copyValue_string (tag : String) (s d : Value) :
    copyValue tag .string s d = .ok s := by
  rw [copyValue.eq_def]

theorem copyValue_int (tag : String) (s d : Value) :
    copyValue tag .int s d = .ok s := by
  rw [copyValue.eq_def]

/-- One-step unfolding of `copySlice` under the `longer` override. -/
theorem copySlice_longer_eq (tag : String) (et : Ty) (ss ds : List Value) :
    copySlice (some "longer") tag et (some ss) (some ds) =
      (copyElemsN tag et
          (if ss.length > ds.length then ds.length else ss.length) ss
          (if ds.length < ss.length then
            ds ++ List.replicate (ss.length - ds.length) (zeroVal et)
          else ds)).map fun res =>
        if ds.length < ss.length then some res else some res := by
  rw [copySlice.eq_def]
  rfl

/-- Under the `longer` policy the destination is extended to the source
length when the source is longer, but the loop is clamped to the *old*
destination length, so the new positions keep their zero values; when the
destination is at least as long, its length and its elements beyond the
source length are untouched. -/
theorem copySlice_longer_spec (tag : String) (et : Ty) (ss ds : List Value) :
    (ds.length < ss.length →
      ∃ res, copySlice (some "longer") tag et (some ss) (some ds) =
          .ok (some res) ∧ res.length = ss.length ∧
        ∀ i, ds.length ≤ i → i < ss.length → res[i]? = some (zeroVal et)) ∧
    (ss.length ≤ ds.length →
      ∃ res, copySlice (some "longer") tag et (some ss) (some ds) =
          .ok (some res) ∧ res.length = ds.length ∧
        ∀ i, ss.length ≤ i → res[i]? = ds[i]?) := by
  constructor
  · intro hlt
    have hcl : (if ss.length > ds.length then ds.length else ss.length) =
        ds.length := if_pos hlt
    have hext : (if ds.length < ss.length then
        ds ++ List.replicate (ss.length - ds.length) (zeroVal et) else ds) =
        ds ++ List.replicate (ss.length - ds.length) (zeroVal et) :=
      if_pos hlt
    obtain ⟨res, hres, hlen, hget⟩ :=
      copyElemsN_exists tag et
        (ds ++ List.replicate (ss.length - ds.length) (zeroVal et))
        ds.length ss (le_of_lt hlt)
    refine ⟨res, ?_, ?_, ?_⟩
    · rw [copySlice_longer_eq, hcl, hext, hres]
      simp [Except.map, if_pos hlt]
    · rw [hlen]
      simp
      omega
    · intro i h1 h2
      rw [hget i h1]
      rw [List.getElem?_append_right (by omega)]
      rw [List.getElem?_replicate]
      rw [if_pos (by omega)]
  · intro hle
    have hnlt : ¬ds.length < ss.length := not_lt.mpr hle
    have hcl : (if ss.length > ds.length then ds.length else ss.length) =
        ss.length := if_neg (by omega)
    have hext : (if ds.length < ss.length then
        ds ++ List.replicate (ss.length - ds.length) (zeroVal et) else ds) =
        ds := if_neg hnlt
    obtain ⟨res, hres, hlen, hget⟩ :=
      copyElemsN_exists tag et ds ss.length ss le_rfl
    refine ⟨res, ?_, hlen, fun i hi => hget i hi⟩
    rw [copySlice_longer_eq, hcl, hext, hres]
    simp [Except.map]

/-! ### The test scenario type and concrete tag facts -/

/-- `SimpleStruct{ID, Code, Name}` of protect_test.go: `ID` carries
`protectfor:"create,update"`, `Code` carries `protectfor:"update"`, `Name`
carries no tag. -/
def SimpleStructTy : Ty :=
  .struct [("create,update", .string), ("update", .string), ("", .string)]

/-- The source value `{ID: "1", Code: "A", Name: "N"}`. -/
def simpleSrc : Value := .struct [.str "1", .str "A", .str "N"]

theorem ip_cu_create : isProtected "create,update" "create" = true := by decide

theorem ip_u_create : isProtected "update" "create" = false := by decide

theorem ip_no_create : isProtected "" "create" = false := by decide

theorem ip_cu_update : isProtected "create,update" "update" = true := by decide

theorem ip_u_update : isProtected "update" "update" = true := by decide

theorem ip_no_update : isProtected "" "update" = false := by decide

/-- The empty operation tag never matches any exclusion list. -/
theorem isProtected_empty_tag (tv : String) : isProtected tv "" = false := by
  simp [isProtected]

/-- Exclusion-match semantics, as the spec words it: an exact match of the
operation tag against one of the whitespace-trimmed comma-split tokens of
the field's tag value, with the empty operation tag never matching. -/
theorem isProtected_iff (tv t : String) :
    isProtected tv t = true ↔
      t ≠ "" ∧ ∃ tok ∈ splitComma tv, trimSpace tok = t := by
  unfold isProtected
  by_cases htv : tv = ""
  · subst htv
    by_cases ht : t = ""
    · simp [ht]
    · rw [if_pos (by simp)]
      constructor
      · intro h
        cases h
      · rintro ⟨ht', tok, hmem, htok⟩
        rw [show splitComma "" = [""] from rfl] at hmem
        simp at hmem
        subst hmem
        exact (ht' htok.symm).elim
  · by_cases ht : t = ""
    · subst ht
      simp [htv]
    · rw [if_neg (by simp [htv, ht])]
      rw [List.any_eq_true]
      simp [ht]

/-! ### Claim theorems -/

/-- C1: copying `SimpleStruct{"1","A","N"}` into a zero value yields
`{"", "A", "N"}` under tag `create`, `{"", "", "N"}` under tag `update` and
`{"1","A","N"}` under the empty tag; and a field is skipped exactly when the
operation tag is a whitespace-trimmed comma-split token of its exclusion-tag
value, with the empty operation tag never matching. -/
theorem copy_simpleStruct_scenario :
    copyValue "create" SimpleStructTy simpleSrc (zeroVal SimpleStructTy) =
      .ok (.struct [.str "", .str "A", .str "N"]) ∧
    copyValue "update" SimpleStructTy simpleSrc (zeroVal SimpleStructTy) =
      .ok (.struct [.str "", .str "", .str "N"]) ∧
    copyValue "" SimpleStructTy simpleSrc (zeroVal SimpleStructTy) =
      .ok (.struct [.str "1", .str "A", .str "N"]) ∧
    (∀ tv, isProtected tv "" = false) ∧
    (∀ tv t, isProtected tv t = true ↔
      t ≠ "" ∧ ∃ tok ∈ splitComma tv, trimSpace tok = t) := by
  refine ⟨?_, ?_, ?_, isProtected_empty_tag, isProtected_iff⟩ <;>
  · simp [copyValue, copyStruct, SimpleStructTy, simpleSrc, zeroVal, zeroFields,
      ip_cu_create, ip_u_create, ip_no_create, ip_cu_update, ip_u_update,
      ip_no_update, copyValue_string, bind, Except.bind, Except.map]

/-- Spec-side policy resolution, modelled from the spec's words: "return its
merge-policy token, falling back to a declared per-field policy annotation,
falling back to `overwrite`"; `declared` is the per-field option tag. -/
def resolveOptionSpec (override declared : Option String) : String :=
  match override with
  | some o => o
  | none =>
      match declared with
      | some d => d
      | none => "overwrite"

/-- C2: the code's resolution (`getSliceOption`/`getMapOption`) matches the
claim on the override-precedence and no-annotation parts, but it never
consults a declared per-field annotation — its only inputs are the override
map and a constant — so a declared `"shorter"` annotation with no override
resolves to `"overwrite"`, not `"shorter"` as the claim requires. -/
theorem getOption_ignores_declared_annotation :
    getSliceOption none = "overwrite" ∧ getMapOption none = "overwrite" ∧
    (∀ o, getSliceOption (some o) = o) ∧
    (∀ o, getMapOption (some o) = o) ∧
    (∀ o d, resolveOptionSpec (some o) d = o) ∧
    resolveOptionSpec none (some "shorter") = "shorter" ∧
    getSliceOption none ≠ resolveOptionSpec none (some "shorter") := by
  refine ⟨rfl, rfl, fun o => rfl, fun o => rfl, fun o d => rfl, rfl, ?_⟩
  decide

/-- C3 counterexample: under `longer` with source `["a", "b"]` and
destination `["x"]`, the element at index 1 of the result is the zero value
`""`, not the unprotected clone of the source element `"b"`. -/
theorem longer_new_elements_not_cloned_cex :
    copySlice (some "longer") "" .string (some [.str "a", .str "b"])
        (some [.str "x"]) = .ok (some [.str "a", .str ""]) ∧
    Value.str "" ≠ simpleCloneElement (.str "b") := by
  constructor
  · rw [copySlice_longer_eq]
    simp [copyElemsN, copyValue_string, bind, Except.bind, Except.map, zeroVal]
  · simp [simpleCloneElement]

/-- C3 (amended): under `longer`, when the source is longer the destination
is extended to the source length but the new positions hold zero values of
the element type (the copy loop is clamped to the old destination length);
when the destination is at least as long, its length is unchanged and its
elements beyond the source length are untouched. -/
theorem longer_policy_extends_with_zero_values (tag : String) (et : Ty)
    (ss ds : List Value) :
    (ds.length < ss.length →
      ∃ res, copySlice (some "longer") tag et (some ss) (some ds) =
          .ok (some res) ∧ res.length = ss.length ∧
        ∀ i, ds.length ≤ i → i < ss.length → res[i]? = some (zeroVal et)) ∧
    (ss.length ≤ ds.length →
      ∃ res, copySlice (some "longer") tag et (some ss) (some ds) =
          .ok (some res) ∧ res.length = ds.length ∧
        ∀ i, ss.length ≤ i → res[i]? = ds[i]?) :=
  copySlice_longer_spec tag et ss ds

/-- One-step unfolding of `copySlice` under the `shorter` override. -/
theorem copySlice_shorter_eq (tag : String) (et : Ty) (ss ds : List Value) :
    copySlice (some "shorter") tag et (some ss) (some ds) =
      (copyElemsN tag et
          (if ds.length < ss.length then ds.length else ss.length) ss ds).map
        fun res => some res := by
  rw [copySlice.eq_def]
  rfl

/-- C4: the `shorter` policy never truncates the destination: with source
`["a"]` and destination `["x", "y"]` the result still has two elements, the
element beyond the common length untouched (the claim, and `CopySlice`'s own
doc comment "Truncates to the shorter of the two slices", require length 1);
in general the destination length is always preserved. -/
theorem shorter_policy_never_truncates :
    copySlice (some "shorter") "" .string (some [.str "a"])
        (some [.str "x", .str "y"]) = .ok (some [.str "a", .str "y"]) ∧
    (∀ tag et (ss ds res : List Value),
      copySlice (some "shorter") tag et (some ss) (some ds) =
        .ok (some res) → res.length = ds.length) := by
  constructor
  · rw [copySlice_shorter_eq]
    simp [copyElemsN, copyValue_string, bind, Except.bind, Except.map]
  · intro tag et ss ds res h
    rw [copySlice_shorter_eq] at h
    obtain ⟨r, hr, hlen, _⟩ :=
      copyElemsN_exists tag et ds
        (if ds.length < ss.length then ds.length else ss.length) ss
        (by split <;> omega)
    rw [hr] at h
    simp [Except.map] at h
    rw [← h]
    exact hlen

/-- C5 counterexample: under the `patch` policy a nil source map does not
leave the destination unchanged — the nil-source branch runs before the
policy is even resolved and sets the destination to nil. -/
theorem patch_nil_source_clears_dest_cex :
    copyMap (some "patch") "" .int none (some [("a", .int 1)]) = .ok none ∧
    (Except.ok none : Except String (Option (List (String × Value)))) ≠
      .ok (some [("a", .int 1)]) := by
  constructor
  · rw [copyMap.eq_def]
  · simp

/-- C5 (amended): a nil source map sets the destination to nil under every
policy, including `patch`; an empty non-nil source under `patch` leaves all
existing destination entries unchanged (a nil destination is first replaced
by an empty map). -/
theorem copyMap_nil_source_and_empty_patch :
    (∀ (o : Option String) (tag : String) (et : Ty)
        (dv : Option (List (String × Value))),
      copyMap o tag et none dv = .ok none) ∧
    (∀ (tag : String) (et : Ty) (ds : List (String × Value)),
      copyMap (some "patch") tag et (some []) (some ds) = .ok (some ds)) ∧
    (∀ (tag : String) (et : Ty),
      copyMap (some "patch") tag et (some []) none = .ok (some [])) := by
  refine ⟨?_, ?_, ?_⟩
  · intro o tag et dv
    rw [copyMap.eq_def]
  · intro tag et ds
    rw [copyMap.eq_def]
    show Except.ok (some (patchEntries tag et [] ds)) = .ok (some ds)
    rw [show patchEntries tag et [] ds = ds from by rw [patchEntries.eq_def]]
  · intro tag et
    rw [copyMap.eq_def]
    show Except.ok (some (patchEntries tag et [] [])) = .ok (some [])
    rw [show patchEntries tag et [] [] = [] from by rw [patchEntries.eq_def]]

/-- C6: under `patch` with a non-nil source, every key absent from the
source keeps exactly its old value (destination-only keys in particular),
and every source key is present afterwards. -/
theorem patch_preserves_dest_only_keys (tag : String) (et : Ty)
    (ses ds : List (String × Value)) :
    ∃ res, copyMap (some "patch") tag et (some ses) (some ds) =
        .ok (some res) ∧
      (∀ k, List.lookup k ses = none →
        List.lookup k res = List.lookup k ds) ∧
      (∀ k, (List.lookup k ses).isSome = true →
        (List.lookup k res).isSome = true) := by
  refine ⟨patchEntries tag et ses ds, ?_,
    (patchEntries_lookup tag et ses ds).1,
    (patchEntries_lookup tag et ses ds).2⟩
  rw [copyMap.eq_def]
  rfl

/-- C7: `Copy` with the empty tag is idempotent — a second identical call
leaves the destination exactly as the first one did (for well-typed
arguments; the first call makes the destination a deep copy of the source,
and the result of an empty-tag copy does not depend on the prior
destination). -/
theorem Copy_empty_tag_idempotent (t : Ty) (x y y1 : Value)
    (hx : conforms t x = true) (hy : conforms t y = true)
    (h : Copy "" (.ptr t (some x)) (.ptr t (some y)) =
      (.ok (), .ptr t (some y1))) :
    Copy "" (.ptr t (some x)) (.ptr t (some y1)) =
      (.ok (), .ptr t (some y1)) := by
  have hxy : Copy "" (.ptr t (some x)) (.ptr t (some y)) =
      (.ok (), .ptr t (some x)) := by
    simp only [Copy, copyArgs]
    rw [if_pos (tyEq_refl t), copyValue_empty_tag t x y hx hy]
  rw [hxy] at h
  have hx1 : x = y1 := by
    have h2 := congrArg Prod.snd h
    simpa using h2
  subst hx1
  simp only [Copy, copyArgs]
  rw [if_pos (tyEq_refl t), copyValue_empty_tag t x x hx hx]

/-- Witness for C7 at the `SimpleStruct` scenario values. -/
theorem Copy_empty_tag_idempotent_witness :
    Copy "" (.ptr SimpleStructTy (some simpleSrc))
        (.ptr SimpleStructTy (some simpleSrc)) =
      (.ok (), .ptr SimpleStructTy (some simpleSrc)) :=
  Copy_empty_tag_idempotent SimpleStructTy simpleSrc (zeroVal SimpleStructTy)
    simpleSrc (by decide) (by decide)
    (by
      simp only [Copy, copyArgs]
      rw [if_pos (tyEq_refl SimpleStructTy),
        copyValue_empty_tag SimpleStructTy simpleSrc (zeroVal SimpleStructTy)
          (by decide) (by decide)])

/-- C8: a nil source pointer always forces the destination pointer to nil
(even when it held a value); a non-nil source pointer copies recursively
into the existing pointee, or into a fresh zero pointee when the destination
pointer is nil; concretely, a non-excluded nil pointer field overwrites a
populated destination field with nil. -/
theorem copyPtr_nil_source_forces_nil :
    (∀ (tag : String) (et : Ty) (dv : Option Value),
      copyValue tag (.ptr et) (.ptr none) (.ptr dv) = .ok (.ptr none)) ∧
    (∀ (tag : String) (et : Ty) (sv w : Value),
      copyValue tag (.ptr et) (.ptr (some sv)) (.ptr (some w)) =
        (copyValue tag et sv w).map fun v => .ptr (some v)) ∧
    (∀ (tag : String) (et : Ty) (sv : Value),
      copyValue tag (.ptr et) (.ptr (some sv)) (.ptr none) =
        (copyValue tag et sv (zeroVal et)).map fun v => .ptr (some v)) ∧
    copyValue "create" (.struct [("", .ptr SimpleStructTy)])
        (.struct [.ptr none]) (.struct [.ptr (some simpleSrc)]) =
      .ok (.struct [.ptr none]) := by
  refine ⟨?_, ?_, ?_, ?_⟩
  · intro tag et dv
    simp [copyValue, copyPtr, Except.map]
  · intro tag et sv w
    simp only [copyValue, copyPtr]
    cases copyValue tag et sv w <;> simp [Except.map]
  · intro tag et sv
    simp only [copyValue, copyPtr]
    cases copyValue tag et sv (zeroVal et) <;> simp [Except.map]
  · simp [copyValue, copyStruct, copyPtr, ip_no_create, bind, Except.bind,
      Except.map]

/-- C9: every validation error of `Copy` and `CopySlice` (nil arguments,
nil pointers, non-pointer destination, type mismatch, non-slice arguments)
— and, for `CopySlice`, also the unknown-option error, whose `switch`
branch writes nothing — leaves the destination argument unchanged. -/
theorem validation_errors_leave_dst_unchanged :
    (∀ (tag : String) (src dst : GoArg) (e : String),
      (Copy tag src dst).1 = .error e → (Copy tag src dst).2 = dst) ∧
    (∀ (tag : String) (src dst : GoArg) (option e : String),
      (CopySlice tag src dst option).1 = .error e →
        (CopySlice tag src dst option).2 = dst) := by
  constructor
  · intro tag src dst e h
    cases src with
    | nil => cases dst with
        | nil => rfl
        | val _ _ => rfl
        | ptr t dv => cases dv <;> rfl
    | val st sv =>
        cases dst with
        | nil => rfl
        | val _ _ => rfl
        | ptr dt dv =>
            cases dv with
            | none => rfl
            | some w =>
                simp only [Copy, copyArgs] at h ⊢
                by_cases hty : tyEq st dt = true
                · rw [if_pos hty] at h ⊢
                  cases hcv : copyValue tag dt sv w with
                  | ok v => rw [hcv] at h; simp at h
                  | error e2 =>
                      have hok := copyValue_isOk tag dt sv w
                      rw [hcv] at hok
                      simp [Except.isOk, Except.toBool] at hok
                · rw [if_neg hty]
    | ptr st sv =>
        cases sv with
        | none =>
            cases dst with
            | nil => rfl
            | val _ _ => rfl
            | ptr t dv => cases dv <;> rfl
        | some v =>
            cases dst with
            | nil => rfl
            | val _ _ => rfl
            | ptr dt dv =>
                cases dv with
                | none => rfl
                | some w =>
                    simp only [Copy, copyArgs] at h ⊢
                    by_cases hty : tyEq st dt = true
                    · rw [if_pos hty] at h ⊢
                      cases hcv : copyValue tag dt v w with
                      | ok u => rw [hcv] at h; simp at h
                      | error e2 =>
                          have hok := copyValue_isOk tag dt v w
                          rw [hcv] at hok
                          simp [Except.isOk, Except.toBool] at hok
                    · rw [if_neg hty]
  · intro tag src dst option e h
    cases src with
    | nil => cases dst with
        | nil => rfl
        | val _ _ => rfl
        | ptr t dv => cases dv <;> rfl
    | val st sv =>
        cases dst with
        | nil => rfl
        | val _ _ => rfl
        | ptr dt dv =>
            cases dv with
            | none => rfl
            | some w =>
                simp only [CopySlice, copySliceArgs] at h ⊢
                by_cases hty : tyEq st dt = true
                · rw [if_pos hty] at h ⊢
                  cases st <;> try rfl
                  cases sv <;> try rfl
                  cases w <;> try rfl
                  rename_i et ss ds
                  have h2 : ((match copySlice (some option) tag et ss ds with
                      | Except.ok r =>
                          (Except.ok (), GoArg.ptr dt (some (Value.slice r)))
                      | Except.error e =>
                          (Except.error e, GoArg.ptr dt (some (Value.slice ds)))
                      : Except String Unit × GoArg)).1 = Except.error e := h
                  show ((match copySlice (some option) tag et ss ds with
                      | Except.ok r =>
                          (Except.ok (), GoArg.ptr dt (some (Value.slice r)))
                      | Except.error e =>
                          (Except.error e, GoArg.ptr dt (some (Value.slice ds)))
                      : Except String Unit × GoArg)).2 =
                      GoArg.ptr dt (some (Value.slice ds))
                  cases hcs : copySlice (some option) tag et ss ds with
                  | ok r => rw [hcs] at h2; simp at h2
                  | error e2 => rfl
                · rw [if_neg hty]
    | ptr st sv =>
        cases sv with
        | none =>
            cases dst with
            | nil => rfl
            | val _ _ => rfl
            | ptr t dv => cases dv <;> rfl
        | some v =>
            cases dst with
            | nil => rfl
            | val _ _ => rfl
            | ptr dt dv =>
                cases dv with
                | none => rfl
                | some w =>
                    simp only [CopySlice, copySliceArgs] at h ⊢
                    by_cases hty : tyEq st dt = true
                    · rw [if_pos hty] at h ⊢
                      cases st <;> try rfl
                      cases v <;> try rfl
                      cases w <;> try rfl
                      rename_i et ss ds
                      have h2 : ((match copySlice (some option) tag et ss ds with
                          | Except.ok r =>
                              (Except.ok (), GoArg.ptr dt (some (Value.slice r)))
                          | Except.error e =>
                              (Except.error e,
                                GoArg.ptr dt (some (Value.slice ds)))
                          : Except String Unit × GoArg)).1 = Except.error e := h
                      show ((match copySlice (some option) tag et ss ds with
                          | Except.ok r =>
                              (Except.ok (), GoArg.ptr dt (some (Value.slice r)))
                          | Except.error e =>
                              (Except.error e,
                                GoArg.ptr dt (some (Value.slice ds)))
                          : Except String Unit × GoArg)).2 =
                          GoArg.ptr dt (some (Value.slice ds))
                      cases hcs : copySlice (some option) tag et ss ds with
                      | ok r => rw [hcs] at h2; simp at h2
                      | error e2 => rfl
                    · rw [if_neg hty]

/-- C10: with no per-instance override stored, every slice and map policy
resolves to `overwrite`, so `copyValue` — and with it the `Copy` and `Clone`
entry points — never reaches the `unknown slice option` / `unknown map
option` error branches: `copyValue` always returns `.ok`, and `Clone` of a
non-nil argument always produces a value. -/
theorem no_override_policies_resolve_overwrite :
    getSliceOption none = "overwrite" ∧ getMapOption none = "overwrite" ∧
    (∀ (tag : String) (t : Ty) (s d : Value),
      (copyValue tag t s d).isOk = true) ∧
    (∀ (t : Ty) (v : Value), (Clone (GoArg.val t v)).isSome = true) ∧
    (∀ (t : Ty) (v : Value), (Clone (GoArg.ptr t (some v))).isSome = true) := by
  refine ⟨rfl, rfl, copyValue_isOk, ?_, ?_⟩
  · intro t v
    cases hcv : copyValue "" t v (zeroVal t) with
    | ok w => simp [Clone, hcv]
    | error e =>
        have hok := copyValue_isOk "" t v (zeroVal t)
        rw [hcv] at hok
        simp [Except.isOk, Except.toBool] at hok
  · intro t v
    cases hcv : copyValue "" t v (zeroVal t) with
    | ok w => simp [Clone, hcv]
    | error e =>
        have hok := copyValue_isOk "" t v (zeroVal t)
        rw [hcv] at hok
        simp [Except.isOk, Except.toBool] at hok

end Protect
